import Mathlib

/-
Verification of the image-reference reconciliation core of the ophotech
backend: the TipTap document-tree walkers (extractPlainTextFromTiptap,
findFirstImageAttrs, collectImageFilePaths) and the storage
reconciliation operations (listAllFilesInFolder, removeFiles,
syncStorageWithContent, deleteAllContentImages).

The JavaScript values flowing through the walkers are modelled by
`JsVal` (a root value that may be null, a primitive, or an object) and
`Node` (an object read through the TiptapNode interface).  Attribute
values that the code only ever inspects with a typeof-string test are
modelled by `Prim` (a string, or any other value).  The remote object
store is modelled by the sequence of responses it gives to successive
page-list requests (`PageResp`) and by a function giving its response
to each bulk-delete request; the operations additionally return the
trace of requests they issued so that claims about which calls happen
can be stated.
-/

namespace Ophotech

/-- A JavaScript attribute value as the walkers see it: either a string
or some other value (the code only ever tests `typeof v === 'string'`). -/
inductive Prim where
  | str (s : String)
  | other
deriving DecidableEq

/-- The `attrs` object of a node, restricted to the three keys the code
reads (`src`, `filePath`, `alt`); `none` models a missing key or a key
the source never reads. -/
structure Attrs where
  src : Option Prim
  filePath : Option Prim
  alt : Option Prim
deriving DecidableEq

/-- A TiptapNode object: `type?: string`, `attrs?`, `text?: string`,
`content?: TiptapNode[]`.  `none` in `type`/`text` models a missing or
non-string field (the code only compares `type` against string literals
and reads `text` under a typeof-string guard); `none` in `attrs` models
a missing, null or non-object `attrs` (the code guards it with
`isObject`); an absent or non-array `content` is modelled by `[]` (the
code only iterates over it when `Array.isArray` holds). -/
inductive Node where
  | mk : Option String → Option Attrs → Option String → List Node → Node

/-- The `type` field of a node. -/
def Node.type : Node → Option String
  | .mk t _ _ _ => t

/-- The `attrs` field of a node. -/
def Node.attrs : Node → Option Attrs
  | .mk _ a _ _ => a

/-- The `text` field of a node. -/
def Node.text : Node → Option String
  | .mk _ _ tx _ => tx

/-- The `content` field of a node. -/
def Node.content : Node → List Node
  | .mk _ _ _ c => c

/-- A root value handed to the walkers (`doc: unknown`): null, undefined,
a primitive, or an object. -/
inductive JsVal where
  | jnull
  | jundefined
  | jbool (b : Bool)
  | jnum (n : Int)
  | jstr (s : String)
  | jobj (node : Node)

/-- `isObject(value)`: `typeof value === 'object' && value !== null`. -/
def isObject : JsVal → Bool
  | .jobj _ => true
  | _ => false

/-- `asNode(value)`: the value read as a TiptapNode when it is a non-null
object, otherwise null. -/
def asNode : JsVal → Option Node
  | .jobj n => some n
  | _ => none

/-- Whitespace characters removed by JavaScript `String.prototype.trim`
(ASCII whitespace, NBSP and the BOM). -/
def isJsWhitespace (c : Char) : Bool :=
  c == ' ' || c == '\t' || c == '\n' || c == '\r' ||
    c == Char.ofNat 11 || c == Char.ofNat 12 || c == Char.ofNat 160 ||
    c == Char.ofNat 0xFEFF

/-- JavaScript `s.trim()`: strip leading and trailing whitespace. -/
def jsTrim (s : String) : String :=
  ⟨((s.data.dropWhile isJsWhitespace).reverse.dropWhile isJsWhitespace).reverse⟩

/-! ## extractPlainTextFromTiptap -/

mutual
/-- The recursive `walk` of `extractPlainTextFromTiptap`: append
`node.text` when the node's type is "text" and the text is a string,
append a newline when the type is "hardBreak", then walk the children. -/
def extractWalk : Node → String
  | .mk ty _ tx content =>
      (if ty = some "text" then tx.getD "" else "")
        ++ (if ty = some "hardBreak" then "\n" else "")
        ++ extractWalkList content

/-- `extractWalk` over a child array, in array order. -/
def extractWalkList : List Node → String
  | [] => ""
  | n :: ns => extractWalk n ++ extractWalkList ns
end

/-- `extractPlainTextFromTiptap(doc)`: empty string on a malformed root,
otherwise the accumulated walk. -/
def extractPlainTextFromTiptap (doc : JsVal) : String :=
  match asNode doc with
  | none => ""
  | some root => extractWalk root

/-! ## findFirstImageAttrs -/

/-- The projected attrs of an image node: the three recognized fields,
each kept only when its value is a string. -/
structure ImageNodeAttrs where
  src : Option String
  filePath : Option String
  alt : Option String
deriving DecidableEq

/-- `typeof v === 'string' ? v : undefined` on an attrs value. -/
def primAsString : Option Prim → Option String
  | some (.str s) => some s
  | _ => none

/-- The guard `node.type === 'image' && isObject(node.attrs)` shared by
`findFirstImageAttrs` and `collectImageFilePaths`: the attrs object of
the node when the node is image-typed and its attrs is an object. -/
def imageObjectAttrsOf (n : Node) : Option Attrs :=
  match n.type, n.attrs with
  | some "image", some a => some a
  | _, _ => none

mutual
/-- The recursive `walk` of `findFirstImageAttrs`: on the first node
whose type is "image" and whose attrs is an object, return the three
projected fields without descending further; otherwise walk the
children. -/
def findImageWalk : Node → Option ImageNodeAttrs
  | .mk ty attrs tx content =>
      match imageObjectAttrsOf (.mk ty attrs tx content) with
      | some a =>
          some ⟨primAsString a.src, primAsString a.filePath, primAsString a.alt⟩
      | none => findImageWalkList content

/-- `findImageWalk` over a child array: first hit wins. -/
def findImageWalkList : List Node → Option ImageNodeAttrs
  | [] => none
  | n :: ns =>
      match findImageWalk n with
      | some r => some r
      | none => findImageWalkList ns
end

/-- `findFirstImageAttrs(doc)`: null on a malformed root, otherwise the
first-found image attrs. -/
def findFirstImageAttrs (doc : JsVal) : Option ImageNodeAttrs :=
  match asNode doc with
  | none => none
  | some root => findImageWalk root

/-! ## collectImageFilePaths -/

/-- `Set.add` on the insertion-ordered model of a JavaScript `Set`:
append the element when it is not already present. -/
def setAdd (s : List String) (x : String) : List String :=
  if x ∈ s then s else s ++ [x]

/-- The `filePath` a node contributes to the collected set: present
exactly when the node's type is "image", its attrs is an object, and
`attrs.filePath` is a string that is truthy after `trim()`. -/
def imageFilePathOf (n : Node) : Option String :=
  match imageObjectAttrsOf n with
  | some a =>
      match a.filePath with
      | some (.str fp) => if jsTrim fp ≠ "" then some fp else none
      | _ => none
  | none => none

mutual
/-- The recursive `walk` of `collectImageFilePaths`, threading the set
being built: add the node's valid `filePath` (if any), then walk all
children — no short-circuit. -/
def collectWalk (acc : List String) : Node → List String
  | .mk ty attrs tx content =>
      collectWalkList
        (match imageFilePathOf (.mk ty attrs tx content) with
         | some fp => setAdd acc fp
         | none => acc)
        content

/-- `collectWalk` over a child array, left to right. -/
def collectWalkList (acc : List String) : List Node → List String
  | [] => acc
  | n :: ns => collectWalkList (collectWalk acc n) ns
end

/-- `collectImageFilePaths(doc)`: the set (insertion-ordered, duplicate
free) of referenced storage paths; empty on a malformed root. -/
def collectImageFilePaths (doc : JsVal) : List String :=
  match asNode doc with
  | none => []
  | some root => collectWalk [] root

/-! ## Storage model and syncImages operations -/

/-- The `ContentType` union: `'newsletter' | 'blog' | 'caseStudy'`. -/
inductive ContentType where
  | newsletter
  | blog
  | caseStudy
deriving DecidableEq

/-- The fixed `folderMap` table. -/
def folderMap : ContentType → String
  | .newsletter => "newsletters"
  | .blog => "blogs"
  | .caseStudy => "case-studies"

/-- `getFolderPrefix(type, id)`. -/
def getFolderPrefix (type : ContentType) (id : String) : String :=
  folderMap type ++ "/" ++ id

/-- The provider's response to one `list(prefix, ..limit, offset..)`
request: either an error, or a page of entries.  An entry is modelled by
its `name` field when the entry object and the field are present
(`none` models a null entry or a missing name; a null `data` with no
error is the empty page). -/
inductive PageResp where
  | failure (msg : String)
  | page (entries : List (Option String))

/-- One issued list request, as the loop builds it: the fixed limit and
the current offset. -/
structure ListRequest where
  limit : Nat
  offset : Nat
deriving DecidableEq

/-- The page size constant of `listAllFilesInFolder` (`const limit = 1000`). -/
def listPageLimit : Nat := 1000

/-- `if (f?.name) paths.push(folderPrefix + "/" + f.name)`: the path an
entry contributes, skipped when the entry or its name is missing or the
name is the empty string (falsy). -/
def entryPath (folderPrefix : String) : Option String → Option String
  | some nm => if nm ≠ "" then some (folderPrefix ++ "/" ++ nm) else none
  | none => none

/-- The `while (true)` pagination loop of `listAllFilesInFolder`, run
against the provider's successive responses.  Returns the list requests
issued (in order) and the outcome: `none` when the supplied responses
ran out with the loop still going (the request just issued is then
recorded but unanswered), otherwise the thrown list error or the
accumulated paths. -/
def listLoop (folderPrefix : String) (offset : Nat) (acc : List String) :
    List PageResp → List ListRequest × Option (Except String (List String))
  | [] => ([⟨listPageLimit, offset⟩], none)
  | .failure m :: _ =>
      ([⟨listPageLimit, offset⟩], some (.error ("Storage list failed: " ++ m)))
  | .page files :: rest =>
      let acc1 := acc ++ files.filterMap (entryPath folderPrefix)
      if files.length < listPageLimit then ([⟨listPageLimit, offset⟩], some (.ok acc1))
      else
        let r := listLoop folderPrefix (offset + listPageLimit) acc1 rest
        (⟨listPageLimit, offset⟩ :: r.1, r.2)

/-- `listAllFilesInFolder(folderPrefix)`: start the pagination loop at
offset 0 with an empty accumulator. -/
def listAllFilesInFolder (folderPrefix : String) (resps : List PageResp) :
    List ListRequest × Option (Except String (List String)) :=
  listLoop folderPrefix 0 [] resps

/-- The batch size constant of `removeFiles` (`const chunkSize = 1000`). -/
def deleteChunkSize : Nat := 1000

/-- `removeFiles(paths)` run against a provider whose answer to each
bulk-delete request is given by `remove` (`none` = success, `some msg` =
error): slice off chunks of at most 1000 paths and issue them in order,
throwing on the first failed batch.  Returns the chunks actually issued
and the error, if any. -/
def removeFiles (remove : List String → Option String) (paths : List String) :
    List (List String) × Option String :=
  if h : paths = [] then ([], none)
  else
    match remove (paths.take deleteChunkSize) with
    | some m =>
        ([paths.take deleteChunkSize], some ("Storage delete failed: " ++ m))
    | none =>
        let r := removeFiles remove (paths.drop deleteChunkSize)
        (paths.take deleteChunkSize :: r.1, r.2)
termination_by paths.length
decreasing_by
  simp only [List.length_drop]
  have hp : 0 < paths.length := List.length_pos.mpr h
  simp only [deleteChunkSize]
  omega

/-- The observable behaviour of one public storage operation: the folder
it listed, the bulk-delete calls it issued, and its outcome (`none` when
the modelled provider responses ran out mid-listing, otherwise the
thrown error or the returned count). -/
structure OpTrace where
  folderPrefix : String
  deleteCalls : List (List String)
  result : Option (Except String Nat)

/-- `syncStorageWithContent(type, id, contentJson)`: collect the
referenced paths, list the folder, and delete the listed paths not in
the referenced set, in batches; return the number deleted. -/
def syncStorageWithContent (type : ContentType) (id : String) (contentJson : JsVal)
    (resps : List PageResp) (remove : List String → Option String) : OpTrace :=
  let folderPrefix := getFolderPrefix type id
  let referenced := collectImageFilePaths contentJson
  match (listAllFilesInFolder folderPrefix resps).2 with
  | none => ⟨folderPrefix, [], none⟩
  | some (.error e) => ⟨folderPrefix, [], some (.error e)⟩
  | some (.ok allFiles) =>
      let toDelete := allFiles.filter (fun p => !(decide (p ∈ referenced)))
      if toDelete.length > 0 then
        let r := removeFiles remove toDelete
        match r.2 with
        | some e => ⟨folderPrefix, r.1, some (.error e)⟩
        | none => ⟨folderPrefix, r.1, some (.ok toDelete.length)⟩
      else ⟨folderPrefix, [], some (.ok toDelete.length)⟩

/-- `deleteAllContentImages(type, id)`: list the folder and delete
everything in it, in batches; return the number deleted. -/
def deleteAllContentImages (type : ContentType) (id : String)
    (resps : List PageResp) (remove : List String → Option String) : OpTrace :=
  let folderPrefix := getFolderPrefix type id
  match (listAllFilesInFolder folderPrefix resps).2 with
  | none => ⟨folderPrefix, [], none⟩
  | some (.error e) => ⟨folderPrefix, [], some (.error e)⟩
  | some (.ok allFiles) =>
      if allFiles.length > 0 then
        let r := removeFiles remove allFiles
        match r.2 with
        | some e => ⟨folderPrefix, r.1, some (.error e)⟩
        | none => ⟨folderPrefix, r.1, some (.ok allFiles.length)⟩
      else ⟨folderPrefix, [], some (.ok allFiles.length)⟩

/-! ## Specification-side definitions

Definitions in this section follow the wording of the specification
(traversal order, first match, page-by-page listing, chunked deletion)
and are related to the source embeddings by the claim theorems. -/

mutual
/-- The depth-first pre-order (parent before children, children in
array order) listing of all nodes of a tree. -/
def preorder : Node → List Node
  | .mk ty attrs tx content => .mk ty attrs tx content :: preorderList content

/-- `preorder` over a child array, left to right. -/
def preorderList : List Node → List Node
  | [] => []
  | n :: ns => preorder n ++ preorderList ns
end

/-- The text a single node contributes according to the specification:
its `text` for a text node, a newline for a hard break, nothing
otherwise. -/
def textPiece (n : Node) : String :=
  (if n.type = some "text" then n.text.getD "" else "")
    ++ (if n.type = some "hardBreak" then "\n" else "")

/-- The concatenation, with no separator, of the contributions of a list
of nodes. -/
def concatPieces (ns : List Node) : String :=
  (ns.map textPiece).foldr (fun a b => a ++ b) ""

/-- A tree carries the image file path `fp`: some node of the tree is
image-typed, its attrs is an object, and its `filePath` attribute is the
string `fp`, non-empty after trimming whitespace. -/
inductive HasValidImagePath : Node → String → Prop where
  | here (ty : Option String) (a : Attrs) (tx : Option String) (c : List Node) (fp : String) :
      ty = some "image" → a.filePath = some (.str fp) → jsTrim fp ≠ "" →
      HasValidImagePath (.mk ty (some a) tx c) fp
  | child (ty : Option String) (attrs : Option Attrs) (tx : Option String) (c : List Node)
      (n : Node) (fp : String) :
      n ∈ c → HasValidImagePath n fp → HasValidImagePath (.mk ty attrs tx c) fp

/-- Whether a node is image-typed with an object `attrs`. -/
def isImageWithObjectAttrs (n : Node) : Bool :=
  decide (n.type = some "image") && n.attrs.isSome

/-- Whether a node is image-typed, regardless of its `attrs`. -/
def isImageTyped (n : Node) : Bool :=
  decide (n.type = some "image")

/-- The projection of an `attrs` value to the three recognized string
fields; a missing attrs object projects to three absent fields. -/
def projectImageAttrs : Option Attrs → ImageNodeAttrs
  | some a => ⟨primAsString a.src, primAsString a.filePath, primAsString a.alt⟩
  | none => ⟨none, none, none⟩

/-- The claim C6 reading of `findFirstImageAttrs`: project the attrs of
the first node in depth-first pre-order whose type is the image type. -/
def claimFirstImageAttrs (doc : JsVal) : Option ImageNodeAttrs :=
  match asNode doc with
  | none => none
  | some root =>
      (((preorder root).filter isImageTyped).head?).map (fun n => projectImageAttrs n.attrs)

/-- The paths of a listing according to the specification, page by page:
stop at the first page shorter than the page size, abort on a failed
page with no partial result, `none` when the responses ran out. -/
def specListPaths (folderPrefix : String) : List PageResp → Option (Except String (List String))
  | [] => none
  | .failure m :: _ => some (.error ("Storage list failed: " ++ m))
  | .page files :: rest =>
      if files.length < listPageLimit then
        some (.ok (files.filterMap (entryPath folderPrefix)))
      else
        match specListPaths folderPrefix rest with
        | none => none
        | some (.error e) => some (.error e)
        | some (.ok l) => some (.ok (files.filterMap (entryPath folderPrefix) ++ l))

/-- The division of a path list into consecutive chunks of at most 1000. -/
def chunksOf (paths : List String) : List (List String) :=
  if h : paths = [] then []
  else paths.take deleteChunkSize :: chunksOf (paths.drop deleteChunkSize)
termination_by paths.length
decreasing_by
  simp only [List.length_drop]
  have hp : 0 < paths.length := List.length_pos.mpr h
  simp only [deleteChunkSize]
  omega

/-- Erase every `src` attribute value of an attrs object. -/
def eraseSrcAttrs (a : Attrs) : Attrs :=
  ⟨none, a.filePath, a.alt⟩

mutual
/-- Erase every `src` attribute value in a tree; two trees identical
except for `src` values have equal erasures. -/
def eraseSrcNode : Node → Node
  | .mk ty attrs tx content =>
      .mk ty (attrs.map eraseSrcAttrs) tx (eraseSrcList content)

/-- `eraseSrcNode` over a child array. -/
def eraseSrcList : List Node → List Node
  | [] => []
  | n :: ns => eraseSrcNode n :: eraseSrcList ns
end

/-- Erase every `src` attribute value in a root value. -/
def eraseSrcDoc : JsVal → JsVal
  | .jobj n => .jobj (eraseSrcNode n)
  | v => v

/-! ## Helper lemmas -/

theorem concat_init (l : List String) (x : String) :
    l.foldr (fun a b => a ++ b) x = l.foldr (fun a b => a ++ b) "" ++ x := by
  induction l with
  | nil => simp
  | cons a l ih => simp only [List.foldr_cons, ih]; rw [String.append_assoc]

theorem concat_append (l1 l2 : List String) :
    (l1 ++ l2).foldr (fun a b => a ++ b) "" =
      l1.foldr (fun a b => a ++ b) "" ++ l2.foldr (fun a b => a ++ b) "" := by
  rw [List.foldr_append, concat_init]

theorem imageObjectAttrsOf_mk (ty : Option String) (attrs : Option Attrs)
    (tx : Option String) (c : List Node) :
    imageObjectAttrsOf (.mk ty attrs tx c) =
      if ty = some "image" then attrs else none := by
  rcases ty with _ | s
  · rcases attrs with _ | a <;> simp [imageObjectAttrsOf, Node.type, Node.attrs]
  · rcases attrs with _ | a <;> by_cases hs : s = "image" <;>
      simp [imageObjectAttrsOf, Node.type, Node.attrs, hs]

theorem concatPieces_append (l1 l2 : List Node) :
    concatPieces (l1 ++ l2) = concatPieces l1 ++ concatPieces l2 := by
  simp only [concatPieces, List.map_append, concat_append]

theorem extractWalk_eq_concatPieces (n : Node) :
    extractWalk n = concatPieces (preorder n) :=
  extractWalk.induct
    (fun n => extractWalk n = concatPieces (preorder n))
    (fun ns => extractWalkList ns = concatPieces (preorderList ns))
    (fun ty attrs tx c ih => by
      simp only [extractWalk, preorder, concatPieces, List.map_cons, List.foldr_cons,
        textPiece, Node.type, Node.text] at ih ⊢
      rw [ih, concat_init, String.append_assoc])
    (by simp [extractWalkList, preorderList, concatPieces])
    (fun m ms ih1 ih2 => by
      simp only [extractWalkList, preorderList] at ih1 ih2 ⊢
      rw [ih1, ih2, concatPieces_append])
    n

theorem imageObjectAttrsOf_eq_some (ty : Option String) (attrs : Option Attrs)
    (tx : Option String) (c : List Node) (a : Attrs) :
    imageObjectAttrsOf (.mk ty attrs tx c) = some a ↔
      ty = some "image" ∧ attrs = some a := by
  rw [imageObjectAttrsOf_mk]
  by_cases h : ty = some "image" <;> simp [h]

theorem imageObjectAttrsOf_eq_none (ty : Option String) (attrs : Option Attrs)
    (tx : Option String) (c : List Node) :
    imageObjectAttrsOf (.mk ty attrs tx c) = none ↔
      (ty = some "image" → attrs = none) := by
  rw [imageObjectAttrsOf_mk]
  by_cases h : ty = some "image" <;> simp [h]

theorem isImageWithObjectAttrs_of_some (ty : Option String) (attrs : Option Attrs)
    (tx : Option String) (c : List Node) (a : Attrs)
    (ha : imageObjectAttrsOf (.mk ty attrs tx c) = some a) :
    isImageWithObjectAttrs (.mk ty attrs tx c) = true := by
  rw [imageObjectAttrsOf_eq_some] at ha
  simp [isImageWithObjectAttrs, Node.type, Node.attrs, ha.1, ha.2]

theorem isImageWithObjectAttrs_of_none (ty : Option String) (attrs : Option Attrs)
    (tx : Option String) (c : List Node)
    (ha : imageObjectAttrsOf (.mk ty attrs tx c) = none) :
    isImageWithObjectAttrs (.mk ty attrs tx c) = false := by
  rw [imageObjectAttrsOf_eq_none] at ha
  by_cases h : ty = some "image"
  · simp [isImageWithObjectAttrs, Node.type, Node.attrs, h, ha h]
  · simp [isImageWithObjectAttrs, Node.type, Node.attrs, h]

theorem findImageWalk_eq (n : Node) :
    findImageWalk n =
      (((preorder n).filter isImageWithObjectAttrs).head?).map
        (fun m => projectImageAttrs m.attrs) :=
  findImageWalk.induct
    (fun n => findImageWalk n =
      (((preorder n).filter isImageWithObjectAttrs).head?).map
        (fun m => projectImageAttrs m.attrs))
    (fun ns => findImageWalkList ns =
      (((preorderList ns).filter isImageWithObjectAttrs).head?).map
        (fun m => projectImageAttrs m.attrs))
    (fun ty attrs tx c a ha => by
      have hsome := (imageObjectAttrsOf_eq_some ty attrs tx c a).mp ha
      simp only [findImageWalk, ha, preorder, List.filter_cons,
        isImageWithObjectAttrs_of_some ty attrs tx c a ha]
      simp [projectImageAttrs, Node.attrs, hsome.2])
    (fun ty attrs tx c ha ih => by
      simp only [findImageWalk, ha, preorder, List.filter_cons,
        isImageWithObjectAttrs_of_none ty attrs tx c ha]
      simpa using ih)
    (by simp [findImageWalkList, preorderList])
    (fun m ms r hr ih1 => by
      have ih1' : findImageWalk m =
          (((preorder m).filter isImageWithObjectAttrs).head?).map
            (fun x => projectImageAttrs x.attrs) := ih1
      rw [hr] at ih1'
      simp only [findImageWalkList, hr, preorderList, List.filter_append,
        List.head?_append]
      rcases Option.map_eq_some'.mp ih1'.symm with ⟨m', hm', hproj⟩
      simp [hm', hproj])
    (fun m ms hn ih1 ih2 => by
      have ih1' : findImageWalk m =
          (((preorder m).filter isImageWithObjectAttrs).head?).map
            (fun x => projectImageAttrs x.attrs) := ih1
      have ih2' : findImageWalkList ms =
          (((preorderList ms).filter isImageWithObjectAttrs).head?).map
            (fun x => projectImageAttrs x.attrs) := ih2
      rw [hn] at ih1'
      have hh : (((preorder m).filter isImageWithObjectAttrs).head?) = none :=
        Option.map_eq_none'.mp ih1'.symm
      simp only [findImageWalkList, hn, preorderList, List.filter_append,
        List.head?_append, hh, ih2', Option.none_or])
    n

theorem mem_setAdd (s : List String) (x p : String) :
    p ∈ setAdd s x ↔ p ∈ s ∨ p = x := by
  by_cases h : x ∈ s
  · simp only [setAdd, if_pos h]
    exact ⟨Or.inl, fun hp => hp.elim id (fun e => e ▸ h)⟩
  · simp [setAdd, if_neg h]

theorem nodup_setAdd (s : List String) (x : String) (h : s.Nodup) :
    (setAdd s x).Nodup := by
  by_cases hx : x ∈ s
  · simpa [setAdd, if_pos hx] using h
  · simp [setAdd, if_neg hx, List.nodup_append, h, hx]

theorem mem_foldl_setAdd (l : List String) : ∀ (acc : List String) (p : String),
    p ∈ l.foldl setAdd acc ↔ p ∈ acc ∨ p ∈ l := by
  induction l with
  | nil => simp
  | cons x l ih =>
      intro acc p
      simp [List.foldl_cons, ih, mem_setAdd, or_assoc]

theorem nodup_foldl_setAdd (l : List String) : ∀ acc : List String,
    acc.Nodup → (l.foldl setAdd acc).Nodup := by
  induction l with
  | nil => intro acc h; simpa using h
  | cons x l ih => intro acc h; exact ih _ (nodup_setAdd _ _ h)

theorem imageFilePathOf_mk_eq_some (ty : Option String) (attrs : Option Attrs)
    (tx : Option String) (c : List Node) (p : String) :
    imageFilePathOf (.mk ty attrs tx c) = some p ↔
      ty = some "image" ∧
        ∃ a, attrs = some a ∧ a.filePath = some (.str p) ∧ jsTrim p ≠ "" := by
  by_cases hty : ty = some "image"
  · subst hty
    rcases attrs with _ | a
    · simp [imageFilePathOf, imageObjectAttrsOf_mk]
    · rcases hfp : a.filePath with _ | pr
      · simp [imageFilePathOf, imageObjectAttrsOf_mk, hfp]
      · cases pr with
        | str s =>
            by_cases ht : jsTrim s = "" <;>
              simp [imageFilePathOf, imageObjectAttrsOf_mk, hfp, ht] <;>
              rintro rfl <;> exact ht
        | other => simp [imageFilePathOf, imageObjectAttrsOf_mk, hfp]
  · simp [imageFilePathOf, imageObjectAttrsOf_mk, hty]

theorem hasValidImagePath_mk_iff (ty : Option String) (attrs : Option Attrs)
    (tx : Option String) (c : List Node) (p : String) :
    HasValidImagePath (.mk ty attrs tx c) p ↔
      (imageFilePathOf (.mk ty attrs tx c) = some p ∨
        ∃ m ∈ c, HasValidImagePath m p) := by
  constructor
  · intro h
    cases h with
    | here _ a _ _ _ hty hfp htr =>
        left
        rw [imageFilePathOf_mk_eq_some]
        exact ⟨hty, a, rfl, hfp, htr⟩
    | child _ _ _ _ n _ hmem hn => exact Or.inr ⟨n, hmem, hn⟩
  · rintro (h | ⟨m, hm, h⟩)
    · rw [imageFilePathOf_mk_eq_some] at h
      rcases h with ⟨hty, a, rfl, hfp, htr⟩
      exact .here ty a tx c p hty hfp htr
    · exact .child ty attrs tx c m p hm h

theorem collectWalk_eq_foldl (acc : List String) (n : Node) :
    collectWalk acc n = ((preorder n).filterMap imageFilePathOf).foldl setAdd acc :=
  collectWalk.induct
    (fun acc n =>
      collectWalk acc n = ((preorder n).filterMap imageFilePathOf).foldl setAdd acc)
    (fun acc ns =>
      collectWalkList acc ns =
        ((preorderList ns).filterMap imageFilePathOf).foldl setAdd acc)
    (fun acc ty a tx c ih => by
      show collectWalk acc (.mk ty a tx c) =
        ((preorder (.mk ty a tx c)).filterMap imageFilePathOf).foldl setAdd acc
      rw [collectWalk.eq_def]
      rcases hfp : imageFilePathOf (.mk ty a tx c) with _ | fp <;>
        rw [hfp] at ih <;>
        simp only [preorder, List.filterMap_cons, hfp, List.foldl_cons] <;>
        exact ih)
    (fun acc => by
      show collectWalkList acc [] = ((preorderList []).filterMap imageFilePathOf).foldl setAdd acc
      simp [collectWalkList, preorderList])
    (fun acc n ns ih1 ih2 => by
      have ih1' : collectWalk acc n =
          ((preorder n).filterMap imageFilePathOf).foldl setAdd acc := ih1
      have ih2' : collectWalkList (collectWalk acc n) ns =
          ((preorderList ns).filterMap imageFilePathOf).foldl setAdd
            (collectWalk acc n) := ih2
      show collectWalkList acc (n :: ns) =
        ((preorderList (n :: ns)).filterMap imageFilePathOf).foldl setAdd acc
      rw [collectWalkList.eq_def]
      simp only []
      rw [ih2', ih1']
      simp only [preorderList, List.filterMap_append, List.foldl_append])
    acc n

theorem mem_preorderList (ns : List Node) (m : Node) :
    m ∈ preorderList ns ↔ ∃ n ∈ ns, m ∈ preorder n := by
  induction ns with
  | nil => simp [preorderList]
  | cons n ns ih => simp [preorderList, ih]

theorem hasValidImagePath_iff_preorder (n : Node) (p : String) :
    HasValidImagePath n p ↔ ∃ m ∈ preorder n, imageFilePathOf m = some p :=
  preorder.induct
    (fun n => HasValidImagePath n p ↔ ∃ m ∈ preorder n, imageFilePathOf m = some p)
    (fun ns => (∃ n ∈ ns, HasValidImagePath n p) ↔
      ∃ m ∈ preorderList ns, imageFilePathOf m = some p)
    (fun ty a tx c ih => by
      have ih' : (∃ n ∈ c, HasValidImagePath n p) ↔
          ∃ m ∈ preorderList c, imageFilePathOf m = some p := ih
      show HasValidImagePath (.mk ty a tx c) p ↔
        ∃ m ∈ preorder (.mk ty a tx c), imageFilePathOf m = some p
      rw [hasValidImagePath_mk_iff, preorder]
      simp only [List.mem_cons]
      constructor
      · rintro (h | h)
        · exact ⟨.mk ty a tx c, Or.inl rfl, h⟩
        · rcases ih'.mp h with ⟨m, hm, hfp⟩
          exact ⟨m, Or.inr hm, hfp⟩
      · rintro ⟨m, hm | hm, hfp⟩
        · exact Or.inl (hm ▸ hfp)
        · exact Or.inr (ih'.mpr ⟨m, hm, hfp⟩)
    )
    (by simp [preorderList])
    (fun m ms ih1 ih2 => by
      have ih1' : HasValidImagePath m p ↔
          ∃ x ∈ preorder m, imageFilePathOf x = some p := ih1
      have ih2' : (∃ n ∈ ms, HasValidImagePath n p) ↔
          ∃ x ∈ preorderList ms, imageFilePathOf x = some p := ih2
      show (∃ n ∈ m :: ms, HasValidImagePath n p) ↔
        ∃ x ∈ preorderList (m :: ms), imageFilePathOf x = some p
      simp only [preorderList, List.mem_append, List.mem_cons]
      constructor
      · rintro ⟨n, hn | hn, hv⟩
        · rcases ih1'.mp (hn ▸ hv) with ⟨x, hx, hfp⟩
          exact ⟨x, Or.inl hx, hfp⟩
        · rcases ih2'.mp ⟨n, hn, hv⟩ with ⟨x, hx, hfp⟩
          exact ⟨x, Or.inr hx, hfp⟩
      · rintro ⟨x, hx | hx, hfp⟩
        · exact ⟨m, Or.inl rfl, ih1'.mpr ⟨x, hx, hfp⟩⟩
        · rcases ih2'.mpr ⟨x, hx, hfp⟩ with ⟨n, hn, hv⟩
          exact ⟨n, Or.inr hn, hv⟩
    )
    n

theorem imageFilePathOf_eraseSrcNode (n : Node) :
    imageFilePathOf (eraseSrcNode n) = imageFilePathOf n := by
  rcases n with ⟨ty, attrs, tx, c⟩
  rw [eraseSrcNode.eq_def]
  simp only [imageFilePathOf, imageObjectAttrsOf_mk]
  by_cases hty : ty = some "image"
  · rcases attrs with _ | a <;> simp [hty, eraseSrcAttrs]
  · simp [hty]

theorem preorder_eraseSrcNode (n : Node) :
    preorder (eraseSrcNode n) = (preorder n).map eraseSrcNode :=
  eraseSrcNode.induct
    (fun n => preorder (eraseSrcNode n) = (preorder n).map eraseSrcNode)
    (fun ns => preorderList (eraseSrcList ns) = (preorderList ns).map eraseSrcNode)
    (fun ty attrs tx c ih => by
      have ih' : preorderList (eraseSrcList c) = (preorderList c).map eraseSrcNode := ih
      show preorder (eraseSrcNode (.mk ty attrs tx c)) =
        (preorder (.mk ty attrs tx c)).map eraseSrcNode
      rw [eraseSrcNode.eq_def]
      simp [preorder, ih', eraseSrcNode])
    (by
      show preorderList (eraseSrcList []) = (preorderList []).map eraseSrcNode
      simp [eraseSrcList, preorderList])
    (fun m ms ih1 ih2 => by
      have ih1' : preorder (eraseSrcNode m) = (preorder m).map eraseSrcNode := ih1
      have ih2' : preorderList (eraseSrcList ms) = (preorderList ms).map eraseSrcNode := ih2
      show preorderList (eraseSrcList (m :: ms)) =
        (preorderList (m :: ms)).map eraseSrcNode
      simp [eraseSrcList, preorderList, ih1', ih2'])
    n

theorem collectImageFilePaths_eraseSrcDoc (doc : JsVal) :
    collectImageFilePaths (eraseSrcDoc doc) = collectImageFilePaths doc := by
  cases doc with
  | jobj n =>
      show collectWalk [] (eraseSrcNode n) = collectWalk [] n
      rw [collectWalk_eq_foldl, collectWalk_eq_foldl, preorder_eraseSrcNode,
        List.filterMap_map]
      have hfn : imageFilePathOf ∘ eraseSrcNode = imageFilePathOf :=
        funext imageFilePathOf_eraseSrcNode
      rw [hfn]
  | jnull => rfl
  | jundefined => rfl
  | jbool b => rfl
  | jnum m => rfl
  | jstr s => rfl

theorem syncStorageWithContent_congr (type : ContentType) (id : String)
    (d1 d2 : JsVal) (resps : List PageResp) (remove : List String → Option String)
    (h : collectImageFilePaths d1 = collectImageFilePaths d2) :
    syncStorageWithContent type id d1 resps remove =
      syncStorageWithContent type id d2 resps remove := by
  unfold syncStorageWithContent
  rw [h]

theorem listLoop_requests_ex (fp : String) : ∀ (resps : List PageResp) (off : Nat) (acc : List String),
    ∃ k, (listLoop fp off acc resps).1 =
      (List.range k).map (fun i => ⟨listPageLimit, off + i * listPageLimit⟩) := by
  intro resps
  induction resps with
  | nil =>
      intro off acc
      exact ⟨1, by simp [listLoop, List.range_succ]⟩
  | cons r rest ih =>
      intro off acc
      cases r with
      | failure m => exact ⟨1, by simp [listLoop, List.range_succ]⟩
      | page files =>
          by_cases hlen : files.length < listPageLimit
          · exact ⟨1, by simp [listLoop, hlen, List.range_succ]⟩
          · obtain ⟨k, hk⟩ := ih (off + listPageLimit) (acc ++ files.filterMap (entryPath fp))
            refine ⟨k + 1, ?_⟩
            simp only [listLoop, if_neg hlen]
            rw [List.range_succ_eq_map, List.map_cons, List.map_map]
            congr 1
            rw [hk]
            apply List.map_congr_left
            intro i _
            simp only [Function.comp_apply, ListRequest.mk.injEq, true_and,
              Nat.succ_eq_add_one]
            ring

theorem listLoop_requests (fp : String) (resps : List PageResp) (off : Nat) (acc : List String) :
    (listLoop fp off acc resps).1 =
      (List.range (listLoop fp off acc resps).1.length).map
        (fun i => ⟨listPageLimit, off + i * listPageLimit⟩) := by
  obtain ⟨k, hk⟩ := listLoop_requests_ex fp resps off acc
  rw [hk]
  simp

theorem listLoop_requests_ne_nil (fp : String) (resps : List PageResp)
    (off : Nat) (acc : List String) : (listLoop fp off acc resps).1 ≠ [] := by
  cases resps with
  | nil => simp [listLoop]
  | cons r rest =>
      cases r with
      | failure m => simp [listLoop]
      | page files =>
          by_cases hlen : files.length < listPageLimit <;> simp [listLoop, hlen]

theorem listLoop_result (fp : String) : ∀ (resps : List PageResp) (off : Nat) (acc : List String),
    (listLoop fp off acc resps).2 =
      match specListPaths fp resps with
      | none => none
      | some (.error e) => some (.error e)
      | some (.ok l) => some (.ok (acc ++ l)) := by
  intro resps
  induction resps with
  | nil => intro off acc; simp [listLoop, specListPaths]
  | cons r rest ih =>
      intro off acc
      cases r with
      | failure m => simp [listLoop, specListPaths]
      | page files =>
          by_cases hlen : files.length < listPageLimit
          · simp [listLoop, specListPaths, hlen]
          · simp only [listLoop, if_neg hlen, specListPaths]
            rw [ih (off + listPageLimit) (acc ++ files.filterMap (entryPath fp))]
            rcases hs : specListPaths fp rest with _ | res
            · simp
            · rcases res with e | l <;> simp [List.append_assoc]

theorem chunksOf_nil : chunksOf [] = [] := by
  rw [chunksOf.eq_def]
  simp

theorem chunksOf_cons (ps : List String) (h : ps ≠ []) :
    chunksOf ps = ps.take deleteChunkSize :: chunksOf (ps.drop deleteChunkSize) := by
  rw [chunksOf.eq_def]
  simp [h]

theorem chunksOf_flatten (ps : List String) : (chunksOf ps).flatten = ps := by
  induction ps using chunksOf.induct with
  | case1 => simp [chunksOf_nil]
  | case2 x hx ih => rw [chunksOf_cons x hx]; simp [ih]

theorem chunksOf_short (ps : List String) :
    ∀ c ∈ chunksOf ps, c.length ≤ deleteChunkSize ∧ c ≠ [] := by
  induction ps using chunksOf.induct with
  | case1 => simp [chunksOf_nil]
  | case2 x hx ih =>
      rw [chunksOf_cons x hx]
      intro c hc
      rcases List.mem_cons.mp hc with rfl | hc
      · refine ⟨by simp [List.length_take], ?_⟩
        simp only [ne_eq, List.take_eq_nil_iff]
        push_neg
        exact ⟨by simp [deleteChunkSize], hx⟩
      · exact ih c hc

theorem removeFiles_ok (remove : List String → Option String) (paths : List String)
    (h : ∀ c ∈ chunksOf paths, remove c = none) :
    removeFiles remove paths = (chunksOf paths, none) := by
  induction paths using removeFiles.induct remove with
  | case1 => rw [removeFiles.eq_def]; simp [chunksOf_nil]
  | case2 x hx fp hfp =>
      exfalso
      have hc : x.take deleteChunkSize ∈ chunksOf x := by
        rw [chunksOf_cons x hx]; exact List.mem_cons_self _ _
      rw [h _ hc] at hfp
      cases hfp
  | case3 x hx hnone ih =>
      have hdrop : ∀ c ∈ chunksOf (x.drop deleteChunkSize), remove c = none := by
        intro c hc
        refine h c ?_
        rw [chunksOf_cons x hx]
        exact List.mem_cons_of_mem _ hc
      rw [removeFiles.eq_def]
      simp only [dif_neg hx, hnone, ih hdrop]
      rw [chunksOf_cons x hx]

theorem removeFiles_run (remove : List String → Option String) (paths : List String) :
    ((removeFiles remove paths).2 = none →
        (removeFiles remove paths).1 = chunksOf paths ∧
        ∀ c ∈ chunksOf paths, remove c = none) ∧
    (∀ m, (removeFiles remove paths).2 = some m →
        ∃ msg c, m = "Storage delete failed: " ++ msg ∧
          remove c = some msg ∧
          (removeFiles remove paths).1.getLast? = some c ∧
          ∀ c' ∈ (removeFiles remove paths).1.dropLast, remove c' = none) ∧
    ((removeFiles remove paths).1 =
        (chunksOf paths).take (removeFiles remove paths).1.length) := by
  induction paths using removeFiles.induct remove with
  | case1 =>
      have hpair : removeFiles remove ([] : List String) = ([], none) := by
        rw [removeFiles.eq_def]; simp
      rw [hpair]
      refine ⟨fun _ => ⟨(by simp [chunksOf_nil]), (by simp [chunksOf_nil])⟩, ?_, (by simp)⟩
      intro m hm
      cases hm
  | case2 x hx fp hfp =>
      have hpair : removeFiles remove x =
          ([x.take deleteChunkSize], some ("Storage delete failed: " ++ fp)) := by
        rw [removeFiles.eq_def]; simp only [dif_neg hx, hfp]
      rw [hpair]
      refine ⟨(fun hcon => by cases hcon), ?_, ?_⟩
      · intro m hm
        cases hm
        refine ⟨fp, x.take deleteChunkSize, rfl, hfp, (by simp [List.getLast?]), ?_⟩
        intro c' hc'
        simp at hc'
      · rw [chunksOf_cons x hx]
        simp
  | case3 x hx hnone ih =>
      have hpair : removeFiles remove x =
          (x.take deleteChunkSize :: (removeFiles remove (x.drop deleteChunkSize)).1,
            (removeFiles remove (x.drop deleteChunkSize)).2) := by
        rw [removeFiles.eq_def]; simp only [dif_neg hx, hnone]
      rw [hpair]
      have htail := ih.2.2
      refine ⟨?_, ?_, ?_⟩
      · intro hres
        have h1 := (ih.1 hres).1
        have h2 := (ih.1 hres).2
        constructor
        · rw [chunksOf_cons x hx, h1]
        · intro c hc
          rw [chunksOf_cons x hx] at hc
          rcases List.mem_cons.mp hc with rfl | hc
          · exact hnone
          · exact h2 c hc
      · intro m hm
        rcases ih.2.1 m hm with ⟨msg, c, hmmsg, hrc, hlast, hdrop⟩
        have hne : (removeFiles remove (x.drop deleteChunkSize)).1 ≠ [] := by
          intro hnil
          rw [hnil] at hlast
          cases hlast
        refine ⟨msg, c, hmmsg, hrc, ?_, ?_⟩
        · rcases hr : (removeFiles remove (x.drop deleteChunkSize)).1 with _ | ⟨y, ys⟩
          · exact absurd hr hne
          · rw [hr] at hlast
            simp only [List.getLast?_cons_cons]
            rw [← hlast]
        · intro c' hc'
          rw [List.dropLast_cons_of_ne_nil hne] at hc'
          rcases List.mem_cons.mp hc' with rfl | hc'
          · exact hnone
          · exact hdrop c' hc'
      · rw [chunksOf_cons x hx]
        simp only [List.length_cons, List.take_succ_cons]
        rw [← htail]

/-! ## Claim theorems -/

/-- Claim C8: for every malformed root value (null, undefined, a
primitive — any non-object), the three traversal operations never fail
and treat the input as an empty tree: extractPlainTextFromTiptap
returns the empty string, findFirstImageAttrs returns null, and
collectImageFilePaths returns the empty set. -/
theorem malformedRoot_safe (v : JsVal) (h : isObject v = false) :
    extractPlainTextFromTiptap v = "" ∧
    findFirstImageAttrs v = none ∧
    collectImageFilePaths v = [] := by
  cases v <;> simp_all [isObject, extractPlainTextFromTiptap, findFirstImageAttrs,
    collectImageFilePaths, asNode]

/-- Claim C8 witness: the three operations on the null root. -/
theorem malformedRoot_safe_witness :
    extractPlainTextFromTiptap .jnull = "" ∧
    findFirstImageAttrs .jnull = none ∧
    collectImageFilePaths .jnull = [] :=
  malformedRoot_safe .jnull rfl

/-- Claim C5 counterexample: a well-formed childless root that is itself
a text node yields its own text, not the empty string, refuting "a
malformed or childless root yields the empty string" as stated. -/
theorem extractPlainText_childless_counterexample :
    (Node.mk (some "text") none (some "Hi") []).content = [] ∧
    extractPlainTextFromTiptap (.jobj (.mk (some "text") none (some "Hi") [])) = "Hi" ∧
    extractPlainTextFromTiptap (.jobj (.mk (some "text") none (some "Hi") [])) ≠ "" := by
  refine ⟨rfl, rfl, ?_⟩
  decide

/-- Claim C5 (amended): extractPlainTextFromTiptap is the depth-first
pre-order concatenation, with no separator, of the text of every "text"
node, with a newline for every "hardBreak" node; the doc
[text "Hi", hardBreak, text "Bye"] yields "Hi\nBye"; a malformed root
yields the empty string, and a childless root yields the empty string
unless the root itself is a text or hardBreak node (in which case it
yields its own contribution). -/
theorem extractPlainTextFromTiptap_spec :
    (∀ doc : JsVal, extractPlainTextFromTiptap doc =
        (match asNode doc with
         | none => ""
         | some root => concatPieces (preorder root))) ∧
    extractPlainTextFromTiptap (.jobj (.mk (some "doc") none none
        [.mk (some "text") none (some "Hi") [],
         .mk (some "hardBreak") none none [],
         .mk (some "text") none (some "Bye") []])) = "Hi\nBye" ∧
    (∀ (doc : JsVal) (root : Node), asNode doc = some root → root.content = [] →
        root.type ≠ some "text" → root.type ≠ some "hardBreak" →
        extractPlainTextFromTiptap doc = "") := by
  have hmain : ∀ doc : JsVal, extractPlainTextFromTiptap doc =
      (match asNode doc with
       | none => ""
       | some root => concatPieces (preorder root)) := by
    intro doc
    cases doc with
    | jobj n => exact extractWalk_eq_concatPieces n
    | jnull => rfl
    | jundefined => rfl
    | jbool b => rfl
    | jnum m => rfl
    | jstr s => rfl
  refine ⟨hmain, by decide, ?_⟩
  intro doc root hdoc hchild hty1 hty2
  rw [hmain doc, hdoc]
  rcases root with ⟨ty, attrs, tx, c⟩
  simp only [Node.content] at hchild
  subst hchild
  simp only [Node.type] at hty1 hty2
  simp [preorder, preorderList, concatPieces, textPiece, Node.type, Node.text,
    hty1, hty2]

/-- Claim C5 witness: a childless container root yields the empty
string. -/
theorem extractPlainTextFromTiptap_spec_witness :
    extractPlainTextFromTiptap (.jobj (.mk (some "doc") none none [])) = "" :=
  extractPlainTextFromTiptap_spec.2.2 (.jobj (.mk (some "doc") none none []))
    (.mk (some "doc") none none []) rfl rfl (by decide) (by decide)

/-- Claim C6 counterexample: on a tree whose first image-typed node has
no attrs object, findFirstImageAttrs skips it and returns the second
image node's projected attrs — not the projection of the first
image-typed node's attrs, as the claim reads. -/
theorem findFirstImage_attrsless_counterexample :
    findFirstImageAttrs (.jobj (.mk (some "doc") none none
        [.mk (some "image") none none [],
         .mk (some "image") (some ⟨none, none, some (.str "x")⟩) none []])) =
      some ⟨none, none, some "x"⟩ ∧
    claimFirstImageAttrs (.jobj (.mk (some "doc") none none
        [.mk (some "image") none none [],
         .mk (some "image") (some ⟨none, none, some (.str "x")⟩) none []])) =
      some ⟨none, none, none⟩ := by
  constructor <;> rfl

/-- Claim C6 (amended): findFirstImageAttrs returns the projection
(src, filePath, alt — each kept only when its value is a string) of the
attrs of the first node in depth-first pre-order whose type is the
image type and whose attrs is an object; image-typed nodes without an
object attrs are skipped (their children still traversed); traversal is
short-circuit: only the first such node determines the result; null
when no such node exists or the root is malformed. -/
theorem findFirstImageAttrs_spec (doc : JsVal) :
    findFirstImageAttrs doc =
      (match asNode doc with
       | none => none
       | some root =>
          (((preorder root).filter isImageWithObjectAttrs).head?).map
            (fun m => projectImageAttrs m.attrs)) := by
  cases doc with
  | jobj n => exact findImageWalk_eq n
  | jnull => rfl
  | jundefined => rfl
  | jbool b => rfl
  | jnum m => rfl
  | jstr s => rfl

/-- Claim C2: collectImageFilePaths is exactly the set of filePath
values carried by image-typed nodes (with object attrs) whose filePath
is a string non-empty after trimming whitespace, over the whole tree
with no short-circuit; the result is duplicate-free; a doc whose two
image nodes share one filePath yields a set of size 1, and a
whitespace-only filePath contributes nothing. -/
theorem collectImageFilePaths_spec :
    (∀ doc : JsVal, (collectImageFilePaths doc).Nodup) ∧
    (∀ (doc : JsVal) (p : String),
        p ∈ collectImageFilePaths doc ↔
          ∃ root, asNode doc = some root ∧ HasValidImagePath root p) ∧
    List.length (collectImageFilePaths (.jobj (.mk (some "doc") none none
        [.mk (some "image") (some ⟨none, some (.str "blogs/1/a.png"), none⟩) none [],
         .mk (some "image") (some ⟨none, some (.str "blogs/1/a.png"), none⟩) none []]))) = 1 ∧
    collectImageFilePaths (.jobj (.mk (some "image")
        (some ⟨none, some (.str "   "), none⟩) none [])) = [] := by
  refine ⟨?_, ?_, (by decide), (by decide)⟩
  · intro doc
    cases doc with
    | jobj n =>
        show (collectWalk [] n).Nodup
        rw [collectWalk_eq_foldl]
        exact nodup_foldl_setAdd _ _ List.nodup_nil
    | jnull => exact List.nodup_nil
    | jundefined => exact List.nodup_nil
    | jbool b => exact List.nodup_nil
    | jnum m => exact List.nodup_nil
    | jstr s => exact List.nodup_nil
  · intro doc p
    cases doc with
    | jobj n =>
        show p ∈ collectWalk [] n ↔ _
        rw [collectWalk_eq_foldl, mem_foldl_setAdd]
        simp only [List.not_mem_nil, false_or, List.mem_filterMap]
        rw [← hasValidImagePath_iff_preorder]
        constructor
        · intro h
          exact ⟨n, rfl, h⟩
        · rintro ⟨root, hroot, h⟩
          cases hroot
          exact h
    | jnull => simp [collectImageFilePaths, asNode]
    | jundefined => simp [collectImageFilePaths, asNode]
    | jbool b => simp [collectImageFilePaths, asNode]
    | jnum m => simp [collectImageFilePaths, asNode]
    | jstr s => simp [collectImageFilePaths, asNode]

/-- Claim C2 witness: a concrete membership through the
characterization. -/
theorem collectImageFilePaths_spec_witness :
    "blogs/1/a.png" ∈ collectImageFilePaths (.jobj (.mk (some "image")
        (some ⟨none, some (.str "blogs/1/a.png"), none⟩) none [])) :=
  (collectImageFilePaths_spec.2.1 _ "blogs/1/a.png").mpr
    ⟨_, rfl, .here (some "image") ⟨none, some (.str "blogs/1/a.png"), none⟩ none []
      "blogs/1/a.png" rfl rfl (by decide)⟩

/-- Claim C9: reconciliation never depends on src — any two document
trees identical except for the values of the src attribute on their
nodes (i.e. equal after erasing src everywhere) have equal referenced
sets, and syncStorageWithContent consequently deletes exactly the same
paths and behaves identically on them for the same stored-object
listing and delete provider. -/
theorem srcIndependence (d1 d2 : JsVal)
    (h : eraseSrcDoc d1 = eraseSrcDoc d2) :
    collectImageFilePaths d1 = collectImageFilePaths d2 ∧
    ∀ (type : ContentType) (id : String) (resps : List PageResp)
      (remove : List String → Option String),
      syncStorageWithContent type id d1 resps remove =
        syncStorageWithContent type id d2 resps remove := by
  have hc : collectImageFilePaths d1 = collectImageFilePaths d2 := by
    rw [← collectImageFilePaths_eraseSrcDoc d1, ← collectImageFilePaths_eraseSrcDoc d2, h]
  exact ⟨hc, fun type id resps remove =>
    syncStorageWithContent_congr type id d1 d2 resps remove hc⟩

/-- Claim C9 witness: two image nodes differing only in src (a CDN URL
vs a non-string value) have the same referenced set. -/
theorem srcIndependence_witness :
    collectImageFilePaths (.jobj (.mk (some "image")
        (some ⟨some (.str "https://cdn.example/a.png"), some (.str "blogs/1/a.png"), none⟩)
        none [])) =
      collectImageFilePaths (.jobj (.mk (some "image")
        (some ⟨some .other, some (.str "blogs/1/a.png"), none⟩) none [])) :=
  (srcIndependence _ _ rfl).1

/-- Claim C3 counterexample: an entry the provider returns with an
empty-string name contributes no path at all — the claimed
reconstruction <prefix>/<entryName> (here "blogs/1/") is absent from
the (empty) result, refuting "returns each returned entry's path". -/
theorem listAllFiles_emptyName_counterexample :
    (listAllFilesInFolder "blogs/1" [.page [some ""]]).2 =
      some (.ok ([] : List String)) ∧
    ¬ ("blogs/1" ++ "/" ++ "" ∈ ([] : List String)) := by
  refine ⟨rfl, ?_⟩
  simp

/-- Claim C3 (amended): listAllFilesInFolder issues requests with the
fixed limit 1000 at offsets 0, 1000, 2000, …; the outcome is, page by
page, the paths <prefix>/<entryName> of the returned entries whose name
is present and non-empty (entries with a missing or empty name are
skipped), stopping at the first page shorter than 1000 entries
(including an empty one); for a provider honouring the limit a second
page request is issued exactly when the first page has exactly 1000
entries; a failed page aborts the whole listing with the storage-list
error carrying the provider's message and no partial result. -/
theorem listAllFilesInFolder_spec (fp : String) (resps : List PageResp) :
    ((listAllFilesInFolder fp resps).1 =
        (List.range (listAllFilesInFolder fp resps).1.length).map
          (fun i => ⟨listPageLimit, i * listPageLimit⟩)) ∧
    ((listAllFilesInFolder fp resps).2 = specListPaths fp resps) ∧
    (∀ files rest, resps = .page files :: rest →
        files.length ≤ listPageLimit →
        (2 ≤ (listAllFilesInFolder fp resps).1.length ↔
          files.length = listPageLimit)) ∧
    (∀ m rest, resps = .failure m :: rest →
        (listAllFilesInFolder fp resps).2 =
          some (.error ("Storage list failed: " ++ m))) := by
  refine ⟨?_, ?_, ?_, ?_⟩
  · simpa using listLoop_requests fp resps 0 []
  · rw [listAllFilesInFolder, listLoop_result]
    rcases hs : specListPaths fp resps with _ | r
    · rfl
    · rcases r with e | l <;> simp [hs]
  · intro files rest hr hle
    subst hr
    by_cases hlen : files.length < listPageLimit
    · rw [listAllFilesInFolder]
      rw [listLoop]
      simp only [if_pos hlen, List.length_cons, List.length_nil]
      constructor
      · intro hcon; omega
      · intro heq; omega
    · rw [listAllFilesInFolder]
      rw [listLoop]
      simp only [if_neg hlen, List.length_cons]
      have hne := listLoop_requests_ne_nil fp rest (0 + listPageLimit)
        ([] ++ files.filterMap (entryPath fp))
      have hpos : 1 ≤ (listLoop fp (0 + listPageLimit)
          ([] ++ files.filterMap (entryPath fp)) rest).1.length :=
        List.length_pos.mpr hne
      constructor
      · intro _; omega
      · intro _; omega
  · intro m rest hr
    subst hr
    rfl

/-- Claim C3 witness: a failed first page yields the storage-list
error, and a full first page of exactly 1000 entries forces a second
page request. -/
theorem listAllFilesInFolder_spec_witness :
    ((listAllFilesInFolder "blogs/1" [.failure "boom"]).2 =
        some (.error ("Storage list failed: " ++ "boom"))) ∧
    (2 ≤ (listAllFilesInFolder "blogs/1"
        [.page (List.replicate 1000 (some "a")), .page []]).1.length ↔
      (List.replicate 1000 (some "a")).length = listPageLimit) :=
  ⟨(listAllFilesInFolder_spec "blogs/1" [.failure "boom"]).2.2.2 "boom" [] rfl,
   (listAllFilesInFolder_spec "blogs/1"
      [.page (List.replicate 1000 (some "a")), .page []]).2.2.1
      (List.replicate 1000 (some "a")) [.page []] rfl
      (by rw [List.length_replicate]; exact Nat.le.refl)⟩

/-- Claim C4: deletion requests go out sequentially in batches of at
most 1000 paths: the issued batches form an in-order prefix of the
1000-chunking of the paths; on success every batch was issued; on a
batch failure the operation fails with the storage-delete error of that
batch, the failing batch is the last one issued — all earlier batches
were already issued and completed (not rolled back) — and no further
batches are issued; syncStorageWithContent and deleteAllContentImages
surface such a failure as an error result rather than succeeding. -/
theorem deletionBatches_spec (remove : List String → Option String) (paths : List String) :
    ((removeFiles remove paths).1 =
        (chunksOf paths).take (removeFiles remove paths).1.length) ∧
    (∀ c ∈ (removeFiles remove paths).1, c.length ≤ deleteChunkSize) ∧
    ((removeFiles remove paths).2 = none →
        (removeFiles remove paths).1 = chunksOf paths) ∧
    (∀ m, (removeFiles remove paths).2 = some m →
        ∃ msg c, m = "Storage delete failed: " ++ msg ∧ remove c = some msg ∧
          (removeFiles remove paths).1.getLast? = some c ∧
          ∀ c' ∈ (removeFiles remove paths).1.dropLast, remove c' = none) ∧
    (∀ (type : ContentType) (id : String) (doc : JsVal) (resps : List PageResp)
        (allFiles : List String) (m : String),
        (listAllFilesInFolder (getFolderPrefix type id) resps).2 = some (.ok allFiles) →
        (removeFiles remove (allFiles.filter
            (fun p => !(decide (p ∈ collectImageFilePaths doc))))).2 = some m →
        (syncStorageWithContent type id doc resps remove).result = some (.error m)) ∧
    (∀ (type : ContentType) (id : String) (resps : List PageResp)
        (allFiles : List String) (m : String),
        (listAllFilesInFolder (getFolderPrefix type id) resps).2 = some (.ok allFiles) →
        (removeFiles remove allFiles).2 = some m →
        (deleteAllContentImages type id resps remove).result = some (.error m)) := by
  have hrun := removeFiles_run remove paths
  refine ⟨hrun.2.2, ?_, fun hres => (hrun.1 hres).1, hrun.2.1, ?_, ?_⟩
  · intro c hc
    rw [hrun.2.2] at hc
    have hmem : c ∈ chunksOf paths := (List.take_sublist _ _).mem hc
    exact (chunksOf_short paths c hmem).1
  · intro type id doc resps allFiles m hlist hrem
    have hne : allFiles.filter
        (fun p => !(decide (p ∈ collectImageFilePaths doc))) ≠ [] := by
      intro hnil
      rw [hnil] at hrem
      rw [removeFiles.eq_def] at hrem
      simp at hrem
    simp only [syncStorageWithContent, hlist]
    have hpos : (allFiles.filter
        (fun p => !(decide (p ∈ collectImageFilePaths doc)))).length > 0 :=
      List.length_pos.mpr hne
    simp only [if_pos hpos, hrem]
  · intro type id resps allFiles m hlist hrem
    have hne : allFiles ≠ [] := by
      intro hnil
      rw [hnil] at hrem
      rw [removeFiles.eq_def] at hrem
      simp at hrem
    simp only [deleteAllContentImages, hlist]
    have hpos : allFiles.length > 0 := List.length_pos.mpr hne
    simp only [if_pos hpos, hrem]

/-- Claim C4 witness: a failing delete batch makes the purge operation
fail visibly with the storage-delete error. -/
theorem deletionBatches_spec_witness :
    (deleteAllContentImages .blog "1" [.page [some "a.png"]]
        (fun _ => some "boom")).result =
      some (.error ("Storage delete failed: " ++ "boom")) :=
  (deletionBatches_spec (fun _ => some "boom") ["blogs/1/a.png"]).2.2.2.2.2
    .blog "1" [.page [some "a.png"]] ["blogs/1/a.png"]
    ("Storage delete failed: " ++ "boom") rfl
    (by rw [removeFiles.eq_def]; simp)

/-- Claim C1: syncStorageWithContent lists the folder <folderName>/<id>
(newsletter→newsletters, blog→blogs, caseStudy→case-studies), deletes
exactly the listed paths that are not in the referenced set, issues no
delete call when that difference is empty, returns the size of the
difference as the deleted count, and never deletes a path in the
referenced set. -/
theorem syncStorageWithContent_spec (type : ContentType) (id : String)
    (doc : JsVal) (resps : List PageResp) (remove : List String → Option String)
    (allFiles : List String)
    (hlist : (listAllFilesInFolder (getFolderPrefix type id) resps).2 =
      some (.ok allFiles))
    (hok : ∀ c, remove c = none) :
    (syncStorageWithContent type id doc resps remove).folderPrefix =
        (match type with
         | .newsletter => "newsletters"
         | .blog => "blogs"
         | .caseStudy => "case-studies") ++ "/" ++ id ∧
    (syncStorageWithContent type id doc resps remove).deleteCalls.flatten =
        allFiles.filter (fun p => !(decide (p ∈ collectImageFilePaths doc))) ∧
    (allFiles.filter (fun p => !(decide (p ∈ collectImageFilePaths doc))) = [] →
        (syncStorageWithContent type id doc resps remove).deleteCalls = []) ∧
    (syncStorageWithContent type id doc resps remove).result =
        some (.ok (allFiles.filter
          (fun p => !(decide (p ∈ collectImageFilePaths doc)))).length) ∧
    (∀ p ∈ collectImageFilePaths doc,
        p ∉ (syncStorageWithContent type id doc resps remove).deleteCalls.flatten) := by
  have hfold : (match type with
      | ContentType.newsletter => "newsletters"
      | ContentType.blog => "blogs"
      | ContentType.caseStudy => "case-studies") = folderMap type := by
    cases type <;> rfl
  by_cases hD : allFiles.filter
      (fun p => !(decide (p ∈ collectImageFilePaths doc))) = []
  · have hsync : syncStorageWithContent type id doc resps remove =
        ⟨getFolderPrefix type id, [],
          some (.ok (allFiles.filter
            (fun p => !(decide (p ∈ collectImageFilePaths doc)))).length)⟩ := by
      simp only [syncStorageWithContent, hlist, hD]
      simp
    rw [hsync]
    refine ⟨(by rw [hfold]; rfl), (by simp [hD]), fun _ => rfl, rfl, ?_⟩
    intro p hp
    simp
  · have hrem := removeFiles_ok remove
      (allFiles.filter (fun p => !(decide (p ∈ collectImageFilePaths doc))))
      (fun c _ => hok c)
    have hpos : (allFiles.filter
        (fun p => !(decide (p ∈ collectImageFilePaths doc)))).length > 0 :=
      List.length_pos.mpr hD
    have hsync : syncStorageWithContent type id doc resps remove =
        ⟨getFolderPrefix type id,
          chunksOf (allFiles.filter
            (fun p => !(decide (p ∈ collectImageFilePaths doc)))),
          some (.ok (allFiles.filter
            (fun p => !(decide (p ∈ collectImageFilePaths doc)))).length)⟩ := by
      simp only [syncStorageWithContent, hlist, if_pos hpos, hrem]
    rw [hsync]
    refine ⟨(by rw [hfold]; rfl), chunksOf_flatten _, fun hcon => absurd hcon hD,
      rfl, ?_⟩
    intro p hp
    rw [chunksOf_flatten]
    intro hmem
    rcases List.mem_filter.mp hmem with ⟨_, hdec⟩
    simp only [Bool.not_eq_eq_eq_not, Bool.not_true, decide_eq_false_iff_not] at hdec
    exact hdec hp

/-- Claim C1 witness: the worked example of the specification —
referenced set containing only a.png, listing a.png, b.png, c.png;
exactly b.png and c.png are deleted and the count is 2. -/
theorem syncStorageWithContent_spec_witness :
    ((syncStorageWithContent .blog "1"
        (.jobj (.mk (some "doc") none none
          [.mk (some "image") (some ⟨none, some (.str "blogs/1/a.png"), none⟩) none []]))
        [.page [some "a.png", some "b.png", some "c.png"]]
        (fun _ => none)).result = some (.ok 2)) ∧
    ((syncStorageWithContent .blog "1"
        (.jobj (.mk (some "doc") none none
          [.mk (some "image") (some ⟨none, some (.str "blogs/1/a.png"), none⟩) none []]))
        [.page [some "a.png", some "b.png", some "c.png"]]
        (fun _ => none)).deleteCalls.flatten =
      ["blogs/1/b.png", "blogs/1/c.png"]) := by
  have h := syncStorageWithContent_spec .blog "1"
    (.jobj (.mk (some "doc") none none
      [.mk (some "image") (some ⟨none, some (.str "blogs/1/a.png"), none⟩) none []]))
    [.page [some "a.png", some "b.png", some "c.png"]]
    (fun _ => none)
    ["blogs/1/a.png", "blogs/1/b.png", "blogs/1/c.png"]
    (by rfl) (fun c => rfl)
  exact ⟨h.2.2.2.1, h.2.1⟩

/-- Claim C7: deleteAllContentImages lists everything under the
record's folder and deletes all of it in batches, regardless of any
document references, returning the count deleted; an empty folder
yields 0 and no delete call. -/
theorem deleteAllContentImages_spec (type : ContentType) (id : String)
    (resps : List PageResp) (remove : List String → Option String)
    (allFiles : List String)
    (hlist : (listAllFilesInFolder (getFolderPrefix type id) resps).2 =
      some (.ok allFiles))
    (hok : ∀ c, remove c = none) :
    (deleteAllContentImages type id resps remove).folderPrefix =
        getFolderPrefix type id ∧
    (deleteAllContentImages type id resps remove).deleteCalls.flatten = allFiles ∧
    (deleteAllContentImages type id resps remove).result =
        some (.ok allFiles.length) ∧
    (allFiles = [] → (deleteAllContentImages type id resps remove).deleteCalls = []) := by
  by_cases hA : allFiles = []
  · subst hA
    have hop : deleteAllContentImages type id resps remove =
        ⟨getFolderPrefix type id, [], some (.ok 0)⟩ := by
      simp only [deleteAllContentImages, hlist]
      simp
    rw [hop]
    exact ⟨rfl, rfl, rfl, fun _ => rfl⟩
  · have hpos : allFiles.length > 0 := List.length_pos.mpr hA
    have hrem := removeFiles_ok remove allFiles (fun c _ => hok c)
    have hop : deleteAllContentImages type id resps remove =
        ⟨getFolderPrefix type id, chunksOf allFiles, some (.ok allFiles.length)⟩ := by
      simp only [deleteAllContentImages, hlist, if_pos hpos, hrem]
    rw [hop]
    exact ⟨rfl, chunksOf_flatten _, rfl, fun hcon => absurd hcon hA⟩

/-- Claim C7 witness: the purge on an empty folder returns 0 and issues
no delete call. -/
theorem deleteAllContentImages_spec_witness :
    (deleteAllContentImages .blog "1" [.page []] (fun _ => none)).result =
        some (.ok 0) ∧
    (deleteAllContentImages .blog "1" [.page []] (fun _ => none)).deleteCalls = [] := by
  have h := deleteAllContentImages_spec .blog "1" [.page []] (fun _ => none) []
    (by rfl) (fun c => rfl)
  exact ⟨h.2.2.1, h.2.2.2 rfl⟩

/-- Claim C10: when the document tree references nothing (for example a
malformed root), syncStorageWithContent coincides with
deleteAllContentImages: same folder listing, same delete calls, and the
purge's returned count equals the sync's deleted count — the two
operation traces are equal. -/
theorem purge_sync_equiv (type : ContentType) (id : String) (doc : JsVal)
    (resps : List PageResp) (remove : List String → Option String)
    (h : collectImageFilePaths doc = []) :
    deleteAllContentImages type id resps remove =
      syncStorageWithContent type id doc resps remove := by
  simp only [deleteAllContentImages, syncStorageWithContent, h]
  rcases hres : (listAllFilesInFolder (getFolderPrefix type id) resps).2 with _ | r
  · rfl
  · rcases r with e | allFiles
    · rfl
    · have hfilter : allFiles.filter (fun p => !(decide (p ∈ ([] : List String)))) =
          allFiles := by
        apply List.filter_eq_self.mpr
        intro a _
        simp
      dsimp only
      rw [hfilter]

/-- Claim C10 witness: purge and sync traces coincide on a concrete
folder when the document is a malformed (null) root. -/
theorem purge_sync_equiv_witness :
    deleteAllContentImages .blog "1" [.page [some "a.png"]] (fun _ => none) =
      syncStorageWithContent .blog "1" .jnull [.page [some "a.png"]] (fun _ => none) :=
  purge_sync_equiv .blog "1" .jnull [.page [some "a.png"]] (fun _ => none) rfl

end Ophotech
